import Mathlib

/-!
Shallow embedding of the video stitching and frame-blending engine of
`video_stitch_node.py`.

Modelling choices:
* A frame is a pixel grid valued in the reals: `Frame ι := ι → ℝ`, where `ι`
  is the (arbitrary) pixel index type shared by all frames of a sequence.
  All claims under scrutiny concern same-shape sequences, so both sequences
  entering an operation share one index type; `resize_video_to_match`
  (source lines 119-135) is then its shape-match fast path, which returns
  `video_b` unchanged.
* A sequence (a torch tensor of shape `[N, H, W, C]`) is a `List (Frame ι)`.
* Python integer parameters that the node schema constrains to be
  non-negative are `ℕ`; `max(0, len_a - overlap_frames)` coincides with
  truncated subtraction on `ℕ`.
* Python code that raises on some input (out-of-bounds tensor indexing such
  as `video_a[-1]` on an empty batch) is embedded as an `Option`-returning
  function, `none` marking the raise.
* The four-way easing-curve dispatch is written inline twice in the source
  (lines 41-53 and 88-97) with identical branches; it is factored here into
  `curveAlpha`.  The loop node's three-way dispatch (lines 560-567, without
  the sigmoid branch) is `loopCurveAlpha`.
-/

noncomputable section

/-- A frame: a pixel grid with real samples, indexed by an arbitrary type. -/
abbrev Frame (ι : Type) : Type := ι → ℝ

variable {ι : Type}

/-- `torch.clamp (·, 0, 1)` on one sample. -/
def clamp01 (x : ℝ) : ℝ := max 0 (min x 1)

/-- The easing-curve dispatch shared verbatim by `interpolate_frames`
(source lines 41-53) and `crossfade_sequences` (lines 88-97): branches on
the method name, an unknown name falling back to linear. -/
def curveAlpha (method : String) (t : ℝ) : ℝ :=
  if method = "linear" then t
  else if method = "ease_in_out" then t * t * (3 - 2 * t)
  else if method = "cosine" then (1 - Real.cos (t * Real.pi)) / 2
  else if method = "sigmoid" then 1 / (1 + Real.exp (-12 * (t - 0.5)))
  else t

/-- `interpolate_frames` (source lines 18-59): `num_frames` blended frames
between `frame_a` and `frame_b`, at progress `t = i / (num_frames + 1)` for
`i = 1 .. num_frames`. -/
def interpolate_frames (frame_a frame_b : Frame ι) (num_frames : ℕ)
    (method : String) : List (Frame ι) :=
  (List.range num_frames).map (fun i =>
    let t : ℝ := (i + 1 : ℕ) / ((num_frames : ℝ) + 1)
    let alpha := curveAlpha method t
    fun p => frame_a p * (1 - alpha) + frame_b p * alpha)

/-- `crossfade_sequences` (source lines 62-116).  The requested count is
re-clamped to both lengths; a clamped count of zero concatenates.  The final
`torch.cat` over the non-empty parts equals the plain list append (in the
non-concatenation branch the blended middle part is always non-empty, so the
`torch.cat([])` failure path is unreachable). -/
def crossfade_sequences (seq_a seq_b : List (Frame ι))
    (crossfade_frames : ℕ) (method : String) : List (Frame ι) :=
  let cf := min crossfade_frames (min seq_a.length seq_b.length)
  if cf = 0 then
    seq_a ++ seq_b
  else
    let pre_fade_a := seq_a.take (seq_a.length - cf)
    let fade_a := seq_a.drop (seq_a.length - cf)
    let fade_b := seq_b.take cf
    let post_fade_b := seq_b.drop cf
    let crossfade_result := (List.range cf).map (fun i =>
      let t : ℝ := (i + 1 : ℕ) / ((cf : ℝ) + 1)
      let alpha := curveAlpha method t
      fun p => fade_a.getD i (fun _ => 0) p * (1 - alpha)
             + fade_b.getD i (fun _ => 0) p * alpha)
    pre_fade_a ++ crossfade_result ++ post_fade_b

/-- `resize_video_to_match` (source lines 119-135) in the same-shape case
(the only case expressible when both sequences share the pixel index type):
returns `video_b` unchanged. -/
def resize_video_to_match (video_a video_b : List (Frame ι)) :
    List (Frame ι) :=
  video_b

/-- `stitch_two_videos` (source lines 138-196).  `video_a[-1]` and
`video_b[0]` are read unconditionally (lines 152-153), so an empty input on
either side raises — embedded as `none`.  `max(0, len_a - overlap_frames)`
is `ℕ` subtraction.  The final `torch.cat` over non-empty parts is the plain
append: with both inputs non-empty at least one part is non-empty. -/
def stitch_two_videos (video_a video_b : List (Frame ι))
    (overlap_frames crossfade_frames interpolation_frames : ℕ)
    (interpolation_method : String) : Option (List (Frame ι)) :=
  let len_a := video_a.length
  let len_b := video_b.length
  let video_b := resize_video_to_match video_a video_b
  match video_a.getLast?, video_b.head? with
  | some last_frame_a, some first_frame_b =>
    let interpolated := interpolate_frames last_frame_a first_frame_b
      interpolation_frames interpolation_method
    if 0 < interpolation_frames ∧ ¬ interpolated.isEmpty then
      some (video_a.dropLast ++ interpolated ++ video_b.tail)
    else if 0 < crossfade_frames then
      let transition_start_a := len_a - overlap_frames
      let transition_end_b := min overlap_frames len_b
      let pre_transition := video_a.take transition_start_a
      let overlap_a := video_a.drop transition_start_a
      let overlap_b := video_b.take transition_end_b
      let post_transition := video_b.drop transition_end_b
      let transition := crossfade_sequences overlap_a overlap_b
        (min crossfade_frames overlap_frames) interpolation_method
      some (pre_transition ++ transition ++ post_transition)
    else
      some (video_a ++ video_b)
  | _, _ => none

namespace VideoFrameBlender

/-- `VideoFrameBlender.execute` (source lines 472-500): truncate both inputs
to the shorter length, blend elementwise by mode (unknown mode falls back to
mix), clamp the result into `[0, 1]`. -/
def execute (frames_a frames_b : List (Frame ι)) (blend_factor : ℝ)
    (blend_mode : String) : List (Frame ι) :=
  let min_frames := min frames_a.length frames_b.length
  let a := frames_a.take min_frames
  let b := resize_video_to_match a (frames_b.take min_frames)
  let result := List.zipWith (fun fa fb p =>
    if blend_mode = "mix" then
      fa p * (1 - blend_factor) + fb p * blend_factor
    else if blend_mode = "add" then
      clamp01 (fa p + fb p * blend_factor)
    else if blend_mode = "multiply" then
      fa p * (fb p * blend_factor + (1 - blend_factor))
    else if blend_mode = "screen" then
      1 - (1 - fa p) * (1 - fb p * blend_factor)
    else if blend_mode = "overlay" then
      if fa p < 0.5 then 2 * fa p * fb p * blend_factor
      else 1 - 2 * (1 - fa p) * (1 - fb p * blend_factor)
    else
      fa p * (1 - blend_factor) + fb p * blend_factor) a b
  result.map (fun f p => clamp01 (f p))

end VideoFrameBlender

/-- The easing-curve dispatch of `VideoLoopSeamless.execute` (source lines
560-567): like `curveAlpha` but with no sigmoid branch. -/
def loopCurveAlpha (blend_curve : String) (t : ℝ) : ℝ :=
  if blend_curve = "linear" then t
  else if blend_curve = "ease_in_out" then t * t * (3 - 2 * t)
  else if blend_curve = "cosine" then (1 - Real.cos (t * Real.pi)) / 2
  else t

namespace VideoLoopSeamless

/-- `VideoLoopSeamless.execute` (source lines 542-583): clamp the blend
count to half the length; below 2, return the input unchanged; otherwise
blend the tail region toward the head region.  `video[blend_frames:-bf]` is
drop-then-take; the `middle`-empty guard before the final `torch.cat` does
not change the resulting list. -/
def execute (video : List (Frame ι)) (blend_frames : ℕ)
    (blend_curve : String) : List (Frame ι) :=
  let num_frames := video.length
  let bf := min blend_frames (num_frames / 2)
  if bf < 2 then
    video
  else
    let start_region := video.take bf
    let end_region := video.drop (num_frames - bf)
    let middle := (video.drop bf).take (num_frames - 2 * bf)
    let blended := (List.range bf).map (fun i =>
      let t : ℝ := (i : ℕ) / ((bf : ℝ) - 1)
      let alpha := loopCurveAlpha blend_curve t
      fun p => end_region.getD i (fun _ => 0) p * (1 - alpha)
             + start_region.getD i (fun _ => 0) p * alpha)
    start_region ++ middle ++ blended

end VideoLoopSeamless

/-- The blended middle region of `crossfade_sequences` (source lines
83-102), with `n` the already re-clamped crossfade count. -/
def crossfadeBlend (za zb : List (Frame ι)) (n : ℕ)
    (m : String) : List (Frame ι) :=
  (List.range n).map (fun i =>
    let t : ℝ := (i + 1 : ℕ) / ((n : ℝ) + 1)
    let alpha := curveAlpha m t
    fun p => (za.drop (za.length - n)).getD i (fun _ => 0) p * (1 - alpha)
           + (zb.take n).getD i (fun _ => 0) p * alpha)

/-- A uniform gray frame (sample value 1/2), used for concrete instances. -/
def grayFrame : Frame Unit := fun _ => 0.5

/-- A uniform white frame (sample value 1), used for concrete instances. -/
def whiteFrame : Frame Unit := fun _ => 1

/-- The stitched output of the end-to-end scenario: 10 gray frames and 10
white frames, overlap 4, crossfade 4, no interpolation, linear curve. -/
def stitchScenario : List (Frame Unit) :=
  (stitch_two_videos (List.replicate 10 grayFrame)
    (List.replicate 10 whiteFrame) 4 4 0 "linear").getD []

end

variable {ι : Type}

theorem interpolate_frames_length (fa fb : Frame ι) (n : ℕ) (m : String) :
    (interpolate_frames fa fb n m).length = n := by
  simp [interpolate_frames]

theorem stitch_eq_interp (a b : List (Frame ι)) (o c n : ℕ) (m : String)
    (ha : a ≠ []) (hb : b ≠ []) (hn : 0 < n) :
    stitch_two_videos a b o c n m =
      some (a.dropLast ++ interpolate_frames (a.getLast ha) (b.head hb) n m
        ++ b.tail) := by
  have hne : ¬ (interpolate_frames (a.getLast ha) (b.head hb) n m).isEmpty := by
    rw [List.isEmpty_iff]
    intro h
    have := interpolate_frames_length (ι := ι) (a.getLast ha) (b.head hb) n m
    rw [h] at this
    simp at this
    omega
  simp only [stitch_two_videos, resize_video_to_match,
    List.getLast?_eq_getLast a ha, List.head?_eq_head hb,
    if_pos (And.intro hn hne)]

theorem stitch_eq_crossfade (a b : List (Frame ι)) (o c : ℕ) (m : String)
    (ha : a ≠ []) (hb : b ≠ []) (hc : 0 < c) :
    stitch_two_videos a b o c 0 m =
      some (a.take (a.length - o)
        ++ crossfade_sequences (a.drop (a.length - o)) (b.take (min o b.length))
            (min c o) m
        ++ b.drop (min o b.length)) := by
  simp only [stitch_two_videos, resize_video_to_match,
    List.getLast?_eq_getLast a ha, List.head?_eq_head hb,
    lt_irrefl, false_and, if_false, if_pos hc]

theorem stitch_eq_concat (a b : List (Frame ι)) (o : ℕ) (m : String)
    (ha : a ≠ []) (hb : b ≠ []) :
    stitch_two_videos a b o 0 0 m = some (a ++ b) := by
  simp only [stitch_two_videos, resize_video_to_match,
    List.getLast?_eq_getLast a ha, List.head?_eq_head hb,
    lt_irrefl, false_and, if_false]

/-- Claim C2, counterexample: on two empty sequences the pairwise stitcher
does not produce an output — the source reads `video_a[-1]` and
`video_b[0]` unconditionally (lines 152-153), which raises on an empty
batch; the embedding returns `none` there.  This falsifies the claim that
stitching always produces a result for length-0 inputs. -/
theorem stitch_pair_total_counterexample :
    stitch_two_videos ([] : List (Frame Unit)) [] 4 8 2 "ease_in_out"
      = none := rfl

/-- Claim C2 (amended): for every pair of NON-EMPTY input sequences and all
parameter values, the pairwise stitcher produces an output sequence;
degenerate transition parameters are recovered by clamping. -/
theorem stitch_pair_total (a b : List (Frame ι)) (o c n : ℕ) (m : String)
    (ha : a ≠ []) (hb : b ≠ []) :
    ∃ out, stitch_two_videos a b o c n m = some out := by
  rcases Nat.eq_zero_or_pos n with hn | hn
  · rcases Nat.eq_zero_or_pos c with hc | hc
    · subst hn; subst hc
      exact ⟨a ++ b, stitch_eq_concat a b o m ha hb⟩
    · subst hn
      exact ⟨_, stitch_eq_crossfade a b o c m ha hb hc⟩
  · exact ⟨_, stitch_eq_interp a b o c n m ha hb hn⟩

/-- Claim C2, witness: the amended theorem applied at two concrete
one-frame sequences. -/
theorem stitch_pair_total_witness :
    ∃ out, stitch_two_videos [grayFrame] [whiteFrame] 4 8 2 "ease_in_out"
      = some out :=
  stitch_pair_total [grayFrame] [whiteFrame] 4 8 2 "ease_in_out"
    (by simp) (by simp)

/-- Claim C3: with `interpolation_frames = n > 0` and non-empty inputs, the
stitched output has exactly `len a - 1 + n + (len b - 1)` frames, for every
value of `crossfade_frames` (the interpolation path takes precedence). -/
theorem stitch_interp_length (a b : List (Frame ι)) (o c n : ℕ) (m : String)
    (ha : a ≠ []) (hb : b ≠ []) (hn : 0 < n) :
    ∃ out, stitch_two_videos a b o c n m = some out ∧
      out.length = a.length - 1 + n + (b.length - 1) := by
  refine ⟨_, stitch_eq_interp a b o c n m ha hb hn, ?_⟩
  simp [interpolate_frames_length]
  omega

/-- Claim C3, witness: two 3-frame sequences, `n = 5`, `crossfade = 60`:
the output has `3 - 1 + 5 + (3 - 1) = 9` frames. -/
theorem stitch_interp_length_witness :
    ∃ out, stitch_two_videos [grayFrame, grayFrame, grayFrame]
        [whiteFrame, whiteFrame, whiteFrame] 4 60 5 "cosine" = some out ∧
      out.length = 9 := by
  obtain ⟨out, h1, h2⟩ := stitch_interp_length
    [grayFrame, grayFrame, grayFrame] [whiteFrame, whiteFrame, whiteFrame]
    4 60 5 "cosine" (by simp) (by simp) (by omega)
  exact ⟨out, h1, by simpa using h2⟩

/-- Claim C4: with `crossfade_frames = 0` and `interpolation_frames = 0`,
stitching two non-empty same-shape sequences is exactly the concatenation
`a ++ b`, every frame unchanged, with `len a + len b` frames. -/
theorem stitch_concat (a b : List (Frame ι)) (o : ℕ) (m : String)
    (ha : a ≠ []) (hb : b ≠ []) :
    stitch_two_videos a b o 0 0 m = some (a ++ b) ∧
      (a ++ b).length = a.length + b.length :=
  ⟨stitch_eq_concat a b o m ha hb, by simp⟩

/-- Claim C4, witness: concrete two-frame and one-frame sequences. -/
theorem stitch_concat_witness :
    stitch_two_videos [grayFrame, whiteFrame] [whiteFrame] 4 0 0 "linear"
        = some [grayFrame, whiteFrame, whiteFrame] ∧
      ([grayFrame, whiteFrame] ++ [whiteFrame]).length = 2 + 1 := by
  have h := stitch_concat [grayFrame, whiteFrame] [whiteFrame] 4 "linear"
    (by simp) (by simp)
  simpa using h

/-- Claim C9: whenever the clamped blend count `min k (len video / 2)` is
below 2, the seamless-loop node returns its input unchanged — same length,
identical frame content, no blending attempted. -/
theorem loop_seamless_short (video : List (Frame ι)) (k : ℕ) (curve : String)
    (h : min k (video.length / 2) < 2) :
    VideoLoopSeamless.execute video k curve = video := by
  simp only [VideoLoopSeamless.execute, if_pos h]

/-- Claim C9, witness: a 3-frame video with requested blend count 8 clamps
to `min 8 1 = 1 < 2` and is returned unchanged. -/
theorem loop_seamless_short_witness :
    VideoLoopSeamless.execute [grayFrame, whiteFrame, grayFrame] 8 "linear"
      = [grayFrame, whiteFrame, grayFrame] :=
  loop_seamless_short [grayFrame, whiteFrame, grayFrame] 8 "linear"
    (by simp)

/-- Claim C10: the frame blender truncates both inputs to the shorter count,
so its output always has exactly `min (len a) (len b)` frames, for every
blend factor and mode. -/
theorem blender_length (a b : List (Frame ι)) (f : ℝ) (m : String) :
    (VideoFrameBlender.execute a b f m).length = min a.length b.length := by
  simp [VideoFrameBlender.execute, resize_video_to_match]

/-- The blended middle region of `crossfade_sequences` (source lines
83-102), with `n` the already re-clamped crossfade count. -/
theorem crossfadeBlend_length (za zb : List (Frame ι)) (n : ℕ)
    (m : String) : (crossfadeBlend za zb n m).length = n := by
  simp [crossfadeBlend]

theorem crossfade_sequences_parts (za zb : List (Frame ι)) (cf : ℕ)
    (m : String) :
    ∃ blended : List (Frame ι),
      blended.length = min cf (min za.length zb.length) ∧
      crossfade_sequences za zb cf m =
        za.take (za.length - min cf (min za.length zb.length)) ++ blended
          ++ zb.drop (min cf (min za.length zb.length)) := by
  by_cases h : min cf (min za.length zb.length) = 0
  · refine ⟨[], by simp [h], ?_⟩
    simp [crossfade_sequences, h]
  · refine ⟨crossfadeBlend za zb (min cf (min za.length zb.length)) m,
      crossfadeBlend_length za zb _ m, ?_⟩
    simp only [crossfade_sequences, crossfadeBlend, if_neg h]

/-- Claim C6: in the crossfade path (`interpolation_frames = 0`,
`crossfade_frames = c > 0`) the number of cross-blended frames produced is
`c` capped first to `overlap_frames` and then to the frames available in
each side's transition zone (`min o (len a)` and `min o (len b)`); a
crossfade larger than the overlap is silently capped to the overlap, and a
computed crossfade count of 0 makes `crossfade_sequences` a pure
concatenation of the two zone parts. -/
theorem stitch_crossfade_count (a b : List (Frame ι)) (o c : ℕ) (m : String)
    (ha : a ≠ []) (hb : b ≠ []) (hc : 0 < c) :
    ∃ blended : List (Frame ι),
      blended.length = min (min c o) (min (min o a.length) (min o b.length)) ∧
      stitch_two_videos a b o c 0 m =
        some (a.take (a.length - o)
          ++ ((a.drop (a.length - o)).take (min o a.length - blended.length)
              ++ blended
              ++ (b.take (min o b.length)).drop blended.length)
          ++ b.drop (min o b.length)) ∧
      (blended.length = 0 →
        crossfade_sequences (a.drop (a.length - o)) (b.take (min o b.length))
            (min c o) m
          = a.drop (a.length - o) ++ b.take (min o b.length)) := by
  have hza : (a.drop (a.length - o)).length = min o a.length := by
    simp [List.length_drop]
    omega
  have hzb : (b.take (min o b.length)).length = min o b.length := by
    simp [List.length_take]
  obtain ⟨blended, hlen, heq⟩ := crossfade_sequences_parts
    (a.drop (a.length - o)) (b.take (min o b.length)) (min c o) m
  rw [hza, hzb] at hlen heq
  refine ⟨blended, hlen, ?_, ?_⟩
  · rw [stitch_eq_crossfade a b o c m ha hb hc, heq, hlen]
  · intro h0
    have hn : min (min c o) (min (min o a.length) (min o b.length)) = 0 := by
      rw [← hlen]; exact h0
    have hblank : blended = [] := List.eq_nil_of_length_eq_zero h0
    rw [heq, hn, hblank]
    simp [← hza]

/-- Claim C6, witness: 3-frame inputs, overlap 2, crossfade 5: the blended
region has `min (min 5 2) (min 2 2) = 2` frames and the crossfade is capped
to the overlap. -/
theorem stitch_crossfade_count_witness :
    ∃ blended : List (Frame Unit), blended.length = 2 ∧
      stitch_two_videos [grayFrame, whiteFrame, grayFrame]
          [whiteFrame, whiteFrame, whiteFrame] 2 5 0 "linear"
        = some ([grayFrame] ++ blended ++ [whiteFrame]) := by
  obtain ⟨blended, hlen, heq, _⟩ := stitch_crossfade_count
    [grayFrame, whiteFrame, grayFrame] [whiteFrame, whiteFrame, whiteFrame]
    2 5 "linear" (by simp) (by simp) (by omega)
  refine ⟨blended, by simpa using hlen, ?_⟩
  rw [heq]
  simp at hlen
  simp [hlen]

theorem append_drop_suffix {α : Type} (xs ys : List α) :
    (xs ++ ys).drop ((xs ++ ys).length - ys.length) = ys := by
  have h : (xs ++ ys).length - ys.length = xs.length := by
    rw [List.length_append]; omega
  rw [h, List.drop_left]

/-- Claim C7: in the crossfade path, every frame of `a` outside the
transition zone (the first `len a - min o (len a)` frames) appears unchanged
and in order as the output's prefix, and every frame of `b` outside the zone
(the last `len b - min o (len b)` frames) as its suffix; only the zone is
synthesized or replaced. -/
theorem stitch_preserves_outside (a b : List (Frame ι)) (o c : ℕ)
    (m : String) (ha : a ≠ []) (hb : b ≠ []) (hc : 0 < c) :
    ∃ out, stitch_two_videos a b o c 0 m = some out ∧
      out.take (a.length - min o a.length)
          = a.take (a.length - min o a.length) ∧
      out.drop (out.length - (b.length - min o b.length))
          = b.drop (min o b.length) := by
  refine ⟨_, stitch_eq_crossfade a b o c m ha hb hc, ?_, ?_⟩
  · have hk : a.length - min o a.length = a.length - o := by omega
    rw [hk, List.append_assoc]
    have hpre : (a.take (a.length - o)).length = a.length - o := by
      rw [List.length_take]; omega
    rw [List.take_left' hpre]
  · have hpost : (b.drop (min o b.length)).length
        = b.length - min o b.length := by
      rw [List.length_drop]
    rw [← hpost]
    exact append_drop_suffix _ _

/-- Claim C7, witness: with 3-frame inputs and overlap 2, the first frame of
`a` is the output's prefix and the last frame of `b` its suffix. -/
theorem stitch_preserves_outside_witness :
    ∃ out, stitch_two_videos [grayFrame, whiteFrame, grayFrame]
        [whiteFrame, whiteFrame, whiteFrame] 2 5 0 "linear" = some out ∧
      out.take 1 = [grayFrame] ∧
      out.drop (out.length - 1) = [whiteFrame] := by
  obtain ⟨out, h1, h2, h3⟩ := stitch_preserves_outside
    [grayFrame, whiteFrame, grayFrame] [whiteFrame, whiteFrame, whiteFrame]
    2 5 "linear" (by simp) (by simp) (by omega)
  refine ⟨out, h1, ?_, ?_⟩
  · simpa using h2
  · simpa using h3

/-- Claim C8: for every named easing method — linear, ease_in_out, cosine,
sigmoid, and any unknown name (linear fallback) — and every progress value
`t` in `[0,1]`, the blend weight produced by the curve dispatch lies in
`[0,1]`. -/
theorem curveAlpha_mem_unit (method : String) (t : ℝ)
    (h0 : 0 ≤ t) (h1 : t ≤ 1) :
    0 ≤ curveAlpha method t ∧ curveAlpha method t ≤ 1 := by
  unfold curveAlpha
  split_ifs
  · exact ⟨h0, h1⟩
  · constructor
    · nlinarith
    · nlinarith [mul_nonneg (sq_nonneg (1 - t))
        (by linarith : (0:ℝ) ≤ 1 + 2 * t)]
  · have hc1 := Real.neg_one_le_cos (t * Real.pi)
    have hc2 := Real.cos_le_one (t * Real.pi)
    constructor <;> nlinarith
  · have he := Real.exp_pos (-12 * (t - 0.5))
    constructor
    · positivity
    · rw [div_le_one (by linarith)]
      linarith
  · exact ⟨h0, h1⟩

/-- Claim C8, witness: the sigmoid weight at `t = 1/2` lies in `[0,1]`. -/
theorem curveAlpha_mem_unit_witness :
    0 ≤ curveAlpha "sigmoid" (1 / 2) ∧ curveAlpha "sigmoid" (1 / 2) ≤ 1 :=
  curveAlpha_mem_unit "sigmoid" (1 / 2) (by norm_num) (by norm_num)

theorem clamp01_of_mem (x : ℝ) (h0 : 0 ≤ x) (h1 : x ≤ 1) : clamp01 x = x := by
  unfold clamp01
  rw [min_eq_left h1, max_eq_right h0]

theorem zipWith_map_left {α : Type} (g : α → α → α) (cl : α → α) :
    ∀ (a b : List α), a.length = b.length →
      (∀ x ∈ a, ∀ y, cl (g x y) = x) →
      (List.zipWith g a b).map cl = a
  | [], _, _, _ => by simp
  | x :: xs, [], h, _ => by simp at h
  | x :: xs, y :: ys, h, hc => by
    simp only [List.zipWith_cons_cons, List.map_cons]
    rw [hc x (by simp) y]
    congr 1
    exact zipWith_map_left g cl xs ys (by simpa using h)
      (fun z hz w => hc z (by simp [hz]) w)

theorem zipWith_map_right {α : Type} (g : α → α → α) (cl : α → α) :
    ∀ (a b : List α), a.length = b.length →
      (∀ y ∈ b, ∀ x, cl (g x y) = y) →
      (List.zipWith g a b).map cl = b
  | [], [], _, _ => by simp
  | [], y :: ys, h, _ => by simp at h
  | x :: xs, [], _, _ => by simp
  | x :: xs, y :: ys, h, hc => by
    simp only [List.zipWith_cons_cons, List.map_cons]
    rw [hc y (by simp) x]
    congr 1
    exact zipWith_map_right g cl xs ys (by simpa using h)
      (fun z hz w => hc z (by simp [hz]) w)

/-- Claim C5, counterexample: the claim quantifies over every pair of
sequences, but the blender first truncates both inputs to the shorter frame
count, so with a two-frame `a` and a one-frame `b` the output of
`blend(a, b, 0, "mix")` has one frame and is not `a`. -/
theorem blend_identity_counterexample :
    VideoFrameBlender.execute [grayFrame, grayFrame] [whiteFrame] 0 "mix"
      ≠ [grayFrame, grayFrame] := by
  intro h
  have hl := congrArg List.length h
  simp [VideoFrameBlender.execute, resize_video_to_match] at hl

/-- Claim C5 (amended): for every pair of EQUAL-LENGTH sequences whose
samples lie in `[0,1]` (the data-model range of a Frame), blending with
factor 0 in mode mix returns `a` and with factor 1 returns `b`. -/
theorem blend_identity (a b : List (Frame ι))
    (hlen : a.length = b.length)
    (hva : ∀ f ∈ a, ∀ p, 0 ≤ f p ∧ f p ≤ 1)
    (hvb : ∀ f ∈ b, ∀ p, 0 ≤ f p ∧ f p ≤ 1) :
    VideoFrameBlender.execute a b 0 "mix" = a ∧
      VideoFrameBlender.execute a b 1 "mix" = b := by
  have hmin : min a.length b.length = a.length := by omega
  have hb' : b.take a.length = b := by rw [hlen, List.take_length]
  constructor
  · simp only [VideoFrameBlender.execute, resize_video_to_match]
    rw [hmin, List.take_length, hb']
    refine zipWith_map_left _ _ a b hlen ?_
    intro fa hfa fb
    funext p
    have hv := hva fa hfa p
    simp only [reduceIte]
    have harith : fa p * (1 - (0:ℝ)) + fb p * 0 = fa p := by ring
    rw [harith, clamp01_of_mem _ hv.1 hv.2]
  · simp only [VideoFrameBlender.execute, resize_video_to_match]
    rw [hmin, List.take_length, hb']
    refine zipWith_map_right _ _ a b hlen ?_
    intro fb hfb fa
    funext p
    have hv := hvb fb hfb p
    simp only [reduceIte]
    have harith : fa p * (1 - (1:ℝ)) + fb p * 1 = fb p := by ring
    rw [harith, clamp01_of_mem _ hv.1 hv.2]

/-- Claim C5, witness: the amended identities at concrete one-frame gray
and white sequences. -/
theorem blend_identity_witness :
    VideoFrameBlender.execute [grayFrame] [whiteFrame] 0 "mix"
        = [grayFrame] ∧
      VideoFrameBlender.execute [grayFrame] [whiteFrame] 1 "mix"
        = [whiteFrame] := by
  refine blend_identity [grayFrame] [whiteFrame] rfl ?_ ?_
  · intro f hf p
    simp only [List.mem_singleton] at hf
    subst hf
    constructor <;> norm_num [grayFrame]
  · intro f hf p
    simp only [List.mem_singleton] at hf
    subst hf
    constructor <;> norm_num [whiteFrame]

theorem crossfade_sequences_eq_of_ne (za zb : List (Frame ι)) (cf : ℕ)
    (m : String) (h : min cf (min za.length zb.length) ≠ 0) :
    crossfade_sequences za zb cf m
      = za.take (za.length - min cf (min za.length zb.length))
        ++ crossfadeBlend za zb (min cf (min za.length zb.length)) m
        ++ zb.drop (min cf (min za.length zb.length)) := by
  simp only [crossfade_sequences, crossfadeBlend, if_neg h]

theorem stitchScenario_eq :
    stitch_two_videos (List.replicate 10 grayFrame)
        (List.replicate 10 whiteFrame) 4 4 0 "linear"
      = some (List.replicate 6 grayFrame
          ++ crossfade_sequences (List.replicate 4 grayFrame)
              (List.replicate 4 whiteFrame) 4 "linear"
          ++ List.replicate 6 whiteFrame) := by
  rw [stitch_eq_crossfade _ _ 4 4 "linear" (by simp) (by simp) (by norm_num)]
  simp [List.take_replicate, List.drop_replicate]

theorem crossfadeScenario_eq :
    crossfade_sequences (List.replicate 4 grayFrame)
        (List.replicate 4 whiteFrame) 4 "linear"
      = crossfadeBlend (List.replicate 4 grayFrame)
          (List.replicate 4 whiteFrame) 4 "linear" := by
  rw [crossfade_sequences_eq_of_ne _ _ _ _ (by simp)]
  simp [List.take_replicate, List.drop_replicate]

theorem crossfadeBlend_getD (i : ℕ) (hi : i < 4) :
    (crossfadeBlend (List.replicate 4 grayFrame)
        (List.replicate 4 whiteFrame) 4 "linear").getD i (fun _ => 0) ()
      = 1 / 2 * (1 - ((i : ℝ) + 1) / 5) + ((i : ℝ) + 1) / 5 := by
  simp only [crossfadeBlend]
  rw [List.getD_eq_getElem?_getD, List.getElem?_map, List.getElem?_range hi]
  simp only [Option.map_some', Option.getD_some]
  simp only [List.length_replicate, List.drop_replicate, List.take_replicate]
  norm_num
  simp only [List.getElem?_replicate, hi, if_true, Option.getD_some]
  simp only [curveAlpha, reduceIte, grayFrame, whiteFrame]
  ring

/-- Claim C1, counterexample: the end-to-end scenario (10 gray frames, 10
white frames, overlap 4, crossfade 4, no interpolation, linear) yields 16
frames, not the 20 the claim asserts: the crossfade merges the two 4-frame
overlap zones into 4 blended frames, so the total is 6 + 4 + 6. -/
theorem stitch_scenario_counterexample :
    (stitch_two_videos (List.replicate 10 grayFrame)
        (List.replicate 10 whiteFrame) 4 4 0 "linear").map List.length
      = some 16 ∧
    (stitch_two_videos (List.replicate 10 grayFrame)
        (List.replicate 10 whiteFrame) 4 4 0 "linear").map List.length
      ≠ some 20 := by
  rw [stitchScenario_eq, crossfadeScenario_eq]
  constructor
  · simp [crossfadeBlend_length]
  · simp [crossfadeBlend_length]

/-- Claim C1 (amended): the end-to-end scenario yields 16 frames (not 20),
and frames 7 through 10 (1-indexed, i.e. indices 6..9) have monotonically
increasing brightness strictly between gray and white. -/
theorem stitch_scenario_frames :
    stitchScenario.length = 16 ∧
    grayFrame () < stitchScenario.getD 6 (fun _ => 0) () ∧
    stitchScenario.getD 6 (fun _ => 0) ()
        < stitchScenario.getD 7 (fun _ => 0) () ∧
    stitchScenario.getD 7 (fun _ => 0) ()
        < stitchScenario.getD 8 (fun _ => 0) () ∧
    stitchScenario.getD 8 (fun _ => 0) ()
        < stitchScenario.getD 9 (fun _ => 0) () ∧
    stitchScenario.getD 9 (fun _ => 0) () < whiteFrame () := by
  have hs : stitchScenario
      = List.replicate 6 grayFrame
        ++ crossfadeBlend (List.replicate 4 grayFrame)
            (List.replicate 4 whiteFrame) 4 "linear"
        ++ List.replicate 6 whiteFrame := by
    rw [stitchScenario, stitchScenario_eq, crossfadeScenario_eq,
      Option.getD_some]
  have hv : ∀ i : ℕ, i < 4 →
      stitchScenario.getD (6 + i) (fun _ => 0) ()
        = 1 / 2 * (1 - ((i : ℝ) + 1) / 5) + ((i : ℝ) + 1) / 5 := by
    intro i hi
    rw [hs, List.getD_append _ _ _ _
        (by simp [crossfadeBlend_length]; omega),
      List.getD_append_right _ _ _ _ (by simp)]
    simp only [List.length_replicate, Nat.add_sub_cancel_left]
    exact crossfadeBlend_getD i hi
  have h6 : stitchScenario.getD 6 (fun _ => 0) () = 3 / 5 := by
    have h := hv 0 (by norm_num)
    norm_num at h ⊢
    exact h
  have h7 : stitchScenario.getD 7 (fun _ => 0) () = 7 / 10 := by
    have h := hv 1 (by norm_num)
    norm_num at h ⊢
    exact h
  have h8 : stitchScenario.getD 8 (fun _ => 0) () = 4 / 5 := by
    have h := hv 2 (by norm_num)
    norm_num at h ⊢
    exact h
  have h9 : stitchScenario.getD 9 (fun _ => 0) () = 9 / 10 := by
    have h := hv 3 (by norm_num)
    norm_num at h ⊢
    exact h
  refine ⟨?_, ?_, ?_, ?_, ?_, ?_⟩
  · rw [hs]
    simp [crossfadeBlend_length]
  · rw [h6]; norm_num [grayFrame]
  · rw [h6, h7]; norm_num
  · rw [h7, h8]; norm_num
  · rw [h8, h9]; norm_num
  · rw [h9]; norm_num [whiteFrame]
